import Mathlib

/-!
Shallow embedding of src/order_processor.py (the two core functions
process_orders and process_inventory) over Lean lists.

Modelling conventions:
- A pandas numeric cell is Option ℚ; none stands for NaN (missing).
  Sums over a groupby skip missing values (pandas skipna default), so a
  missing cell contributes 0 to a group sum, and a group whose values are
  all missing sums to 0.
- A raw order Quantity cell, before pd.to_numeric(errors="coerce"), is a
  RawCell: either an already numeric value, a missing value, or a value
  that numeric coercion cannot parse; the latter two coerce to none.
- SKU and name cells are modelled as String (the script compares them as
  text; the filter coerces the column with astype(str) before testing
  the reserved markers).
- dict(zip(keys, values)) is modelled by dictOfZip, folding Python dict
  insertion (update in place if the key exists, else append), so a
  duplicated key keeps the LAST value, as in Python.
- groupby(key)[value].sum() is modelled by groupSum: the distinct keys in
  ascending order, each paired with the skipna sum of its values.
- The trailing reindex(range(-4, len(delivery))) of process_orders
  prepends four all-missing rows to the delivery table; blankDeliveryRow
  models such a row.  The MultiIndex column relabelling only affects the
  displayed header, not the rows, and is not modelled.
-/

/-- A raw spreadsheet cell in a quantity column, before numeric coercion:
a numeric value, a missing value (NaN), or a value numeric parsing cannot
handle. -/
inductive RawCell where
  | num (q : ℚ)
  | missing
  | unparseable
deriving DecidableEq

/-- pd.to_numeric(col, errors="coerce"): numeric values pass through,
anything unparseable (and anything already missing) becomes NaN. -/
def toNumeric : RawCell → Option ℚ
  | .num q => some q
  | .missing => none
  | .unparseable => none

/-- A row of the raw orders table (columns Variant SKU, Quantity). -/
structure OrderLine where
  variantSku : String
  quantity : RawCell
deriving DecidableEq

/-- A row of the item data table (columns ID, Item Name, Amount,
Default Unit of Measure). -/
structure CatalogRow where
  id : String
  itemName : String
  amount : Option ℚ
  defaultUom : String
deriving DecidableEq

/-- A row of the exception cases table (columns Variant SKU, Quantity,
Item Name, Fix Qty). -/
structure ExcRow where
  variantSku : String
  quantity : Option ℚ
  itemName : String
  fixQty : Option ℚ
deriving DecidableEq

/-- A row of the stock table (columns Item Name, Balance Qty). -/
structure StockRow where
  itemName : String
  balanceQty : Option ℚ
deriving DecidableEq

/-- A row of the shopify channel table (column SKU; the script adds the
On hand column, the only one it touches). -/
structure ChannelRow where
  sku : String
deriving DecidableEq

/-- A row of the delivery note output, in the column order of the script:
item_code, item_name, description, qty, stock_uom, uom, amount.  Every
field is optional: rows that fail the catalog join keep missing catalog
fields, and the four padding rows are entirely missing. -/
structure DeliveryRow where
  item_code : Option String
  item_name : Option String
  description : Option String
  qty : Option ℚ
  stock_uom : Option String
  uom : Option String
  amount : Option ℚ
deriving DecidableEq

/-! ### Python dict semantics -/

/-- One Python dict insertion: update the value in place when the key is
already present, otherwise append the binding. -/
def dictInsert {α : Type} (d : List (String × α)) (k : String) (v : α) :
    List (String × α) :=
  if d.any (fun p => p.1 == k) then
    d.map (fun p => if p.1 == k then (k, v) else p)
  else
    d ++ [(k, v)]

/-- dict(zip(keys, values)): fold the bindings left to right with dict
insertion; a duplicated key ends up with the value of its last row. -/
def dictOfZip {α : Type} (ps : List (String × α)) : List (String × α) :=
  ps.foldl (fun d p => dictInsert d p.1 p.2) []

/-- Key lookup in a dict. -/
def dictGet {α : Type} (d : List (String × α)) (k : String) : Option α :=
  (d.find? (fun p => p.1 == k)).map (fun p => p.2)

/-! ### String helpers (kernel-computable models of str.startswith and
str.split) -/

/-- Python str.startswith, on the character lists of the strings. -/
def startsWithStr (s p : String) : Bool :=
  p.toList.isPrefixOf s.toList

/-- Helper for splitOnPlus: walk the characters, cutting at each plus
sign; acc holds the current component reversed. -/
def splitOnPlusAux : List Char → List Char → List String
  | [], acc => [String.mk acc.reverse]
  | c :: cs, acc =>
    if c = '+' then String.mk acc.reverse :: splitOnPlusAux cs []
    else splitOnPlusAux cs (c :: acc)

/-- Python s.split(plus sign): at least one component, empty components
kept. -/
def splitOnPlus (s : String) : List String :=
  splitOnPlusAux s.toList []

/-! ### groupby(key)[value].sum() -/

/-- Skipna sum of the values attached to key k: missing values contribute
0, and so do rows with a different key. -/
def keyContrib (rows : List (String × Option ℚ)) (k : String) : ℚ :=
  (rows.map (fun p => if p.1 == k then p.2.getD 0 else 0)).sum

/-- Ascending Bool comparison of strings, by their character lists. -/
def charListLe : List Char → List Char → Bool
  | [], _ => true
  | _ :: _, [] => false
  | a :: as, b :: bs => if a = b then charListLe as bs else decide (a < b)

/-- Insert a string into a list, before the first entry it compares at or
below. -/
def insertSorted (x : String) : List String → List String
  | [] => [x]
  | y :: ys => if charListLe x.toList y.toList then x :: y :: ys
               else y :: insertSorted x ys

/-- Insertion sort of strings in ascending order, modelling the sorted
group keys of a pandas groupby. -/
def sortKeys : List String → List String
  | [] => []
  | x :: xs => insertSorted x (sortKeys xs)

/-- The distinct keys of the rows, in ascending order. -/
def groupKeys (rows : List (String × Option ℚ)) : List String :=
  sortKeys (rows.map Prod.fst).dedup

/-- groupby(key)[value].sum(): one entry per distinct key, in ascending
key order, carrying the skipna sum of the values of that key. -/
def groupSum (rows : List (String × Option ℚ)) : List (String × ℚ) :=
  (groupKeys rows).map (fun k => (k, keyContrib rows k))

/-- Series.map over a groupby result (a series indexed by the group
keys): the summed value when the key is present, otherwise missing. -/
def mapLookup (g : List (String × ℚ)) (k : String) : Option ℚ :=
  ((g.find? (fun p => p.1 == k)).map (fun p => p.2))

/-- Lookup of an aggregated total with default 0 for an absent key. -/
def aggLookup (g : List (String × ℚ)) (s : String) : ℚ :=
  (mapLookup g s).getD 0

/-! ### process_orders -/

/-- The reserved-marker filter of process_orders: keep a line unless its
SKU starts with ROUTEINS or KITE. -/
def keepLine (l : OrderLine) : Bool :=
  !(startsWithStr l.variantSku "ROUTEINS" || startsWithStr l.variantSku "KITE")

/-- product_multipliers = dict(zip(exc[Variant SKU], exc[Quantity])). -/
def multDict (exc : List ExcRow) : List (String × Option ℚ) :=
  dictOfZip (exc.map (fun r => (r.variantSku, r.quantity)))

/-- product_name_changes = dict(zip(exc[Variant SKU], exc[Item Name])). -/
def nameDict (exc : List ExcRow) : List (String × String) :=
  dictOfZip (exc.map (fun r => (r.variantSku, r.itemName)))

/-- map(product_multipliers).fillna(1): the multiplier of a SKU, 1 when
the SKU is absent from the dict and also when its stored multiplier is
missing (fillna turns that NaN into 1 as well). -/
def multiplierOf (exc : List ExcRow) (sku : String) : ℚ :=
  match dictGet (multDict exc) sku with
  | some (some q) => q
  | _ => 1

/-- Series.replace(product_name_changes): the canonical name of a SKU,
the SKU itself when unmapped. -/
def canonicalOf (exc : List ExcRow) (sku : String) : String :=
  (dictGet (nameDict exc) sku).getD sku

/-- One surviving order line after coercion, multiplication and renaming:
the canonical SKU paired with quantity times multiplier (missing stays
missing). -/
def lineOf (exc : List ExcRow) (l : OrderLine) : String × Option ℚ :=
  (canonicalOf exc l.variantSku,
   (toNumeric l.quantity).map (fun q => q * multiplierOf exc l.variantSku))

/-- The order lines that survive the reserved-marker filter, coerced,
multiplied and renamed. -/
def linesOf (orders : List OrderLine) (exc : List ExcRow) :
    List (String × Option ℚ) :=
  (orders.filter keepLine).map (lineOf exc)

/-- The shipment stage: groupby(Variant SKU)[Quantity].sum(). -/
def aggStage (orders : List OrderLine) (exc : List ExcRow) :
    List (String × ℚ) :=
  groupSum (linesOf orders exc)

/-- str.split on the plus sign followed by explode: every aggregated row
becomes one row per component, each keeping the full summed quantity. -/
def explodeBundles (agg : List (String × ℚ)) : List (String × ℚ) :=
  agg.flatMap (fun p => (splitOnPlus p.1).map (fun c => (c, p.2)))

/-- An all-missing delivery row, as produced by the final reindex for the
four index positions -4..-1 that the data does not cover. -/
def blankDeliveryRow : DeliveryRow :=
  ⟨none, none, none, none, none, none, none⟩

/-- Left-merge of one exploded row against the item data on component =
Item Name, followed by the amount and uom assignments and the column
projection: every catalog match yields a delivery row; no match yields a
single row with missing catalog fields. -/
def mergeCatalog (item_data : List CatalogRow) (p : String × ℚ) :
    List DeliveryRow :=
  match item_data.filter (fun c => c.itemName == p.1) with
  | [] => [⟨none, none, some p.1, some p.2, none, none, none⟩]
  | ms => ms.map (fun c =>
      ⟨some c.id, some c.itemName, some p.1, some p.2, some c.defaultUom,
       some c.defaultUom, c.amount.map (fun a => p.2 * a)⟩)

/-- process_orders: filter reserved SKUs, coerce quantities, multiply,
rename, aggregate, explode bundles, merge the catalog, and prepend the
four all-missing rows introduced by reindex(range(-4, len)). -/
def process_orders (orders : List OrderLine) (item_data : List CatalogRow)
    (exc : List ExcRow) : List DeliveryRow :=
  List.replicate 4 blankDeliveryRow ++
    (explodeBundles (aggStage orders exc)).flatMap (mergeCatalog item_data)

/-! ### process_inventory -/

/-- stock_qty = stock.groupby(Item Name)[Balance Qty].sum(). -/
def stockGroups (stock : List StockRow) : List (String × ℚ) :=
  groupSum (stock.map (fun r => (r.itemName, r.balanceQty)))

/-- Tier 1: base On hand from the stock file, 0 when the SKU has no stock
record (map(stock_qty).fillna(0)). -/
def baseOnHand (stock : List StockRow) (sku : String) : ℚ :=
  (mapLookup (stockGroups stock) sku).getD 0

/-- exception_fixqty = exc.groupby(Variant SKU)[Fix Qty].sum(). -/
def fixGroups (exc : List ExcRow) : List (String × ℚ) :=
  groupSum (exc.map (fun r => (r.variantSku, r.fixQty)))

/-- Tier 2: map(exception_fixqty).fillna(previous): the fixed-quantity
override replaces the base value whenever the SKU has a group, else the
base value stands. -/
def afterFixOnHand (stock : List StockRow) (exc : List ExcRow)
    (sku : String) : ℚ :=
  (mapLookup (fixGroups exc) sku).getD (baseOnHand stock sku)

/-- NaN-propagating product of two numeric cells (Fix Qty * Quantity). -/
def cellMul (a b : Option ℚ) : Option ℚ :=
  match a, b with
  | some x, some y => some (x * y)
  | _, _ => none

/-- bundle_component_qty = exc.groupby(Item Name)[Total Qty].sum(), where
Total Qty = Fix Qty * Quantity per row. -/
def bundleGroups (exc : List ExcRow) : List (String × ℚ) :=
  groupSum (exc.map (fun r => (r.itemName, cellMul r.fixQty r.quantity)))

/-- Tier 3: subtract map(bundle_component_qty).fillna(0) from the current
On hand value. -/
def reconciledOnHand (stock : List StockRow) (exc : List ExcRow)
    (sku : String) : ℚ :=
  afterFixOnHand stock exc sku - (mapLookup (bundleGroups exc) sku).getD 0

/-- process_inventory: every channel row, in input order, paired with its
reconciled On hand value. -/
def process_inventory (stock : List StockRow) (shopify : List ChannelRow)
    (exc : List ExcRow) : List (String × ℚ) :=
  shopify.map (fun r => (r.sku, reconciledOnHand stock exc r.sku))

/-! ### Row-level reformulations the claims compare against -/

/-- Sum of Fix Qty over all exception rows sharing a SKU (missing cells
contribute 0). -/
def excFixSum (exc : List ExcRow) (s : String) : ℚ :=
  (exc.map (fun r => if r.variantSku == s then r.fixQty.getD 0 else 0)).sum

/-- Sum of Fix Qty times Quantity over all exception rows whose Item Name
is the given parent (missing products contribute 0). -/
def bundleSubOf (exc : List ExcRow) (s : String) : ℚ :=
  (exc.map (fun r =>
    if r.itemName == s then (cellMul r.fixQty r.quantity).getD 0 else 0)).sum

/-! ### Sorting and grouping lemmas -/

lemma insertSorted_perm (x : String) (l : List String) :
    (insertSorted x l).Perm (x :: l) := by
  induction l with
  | nil => simp [insertSorted]
  | cons y ys ih =>
    rw [insertSorted]
    split
    · exact List.Perm.refl _
    · exact ((ih.cons y).trans (List.Perm.swap x y ys))

lemma sortKeys_perm (l : List String) : (sortKeys l).Perm l := by
  induction l with
  | nil => simp [sortKeys]
  | cons x xs ih =>
    rw [sortKeys]
    exact (insertSorted_perm x (sortKeys xs)).trans (ih.cons x)

lemma mem_groupKeys {s : String} {rows : List (String × Option ℚ)} :
    s ∈ groupKeys rows ↔ s ∈ rows.map Prod.fst := by
  rw [groupKeys, (sortKeys_perm _).mem_iff, List.mem_dedup]

lemma nodup_groupKeys (rows : List (String × Option ℚ)) :
    (groupKeys rows).Nodup := by
  rw [groupKeys, (sortKeys_perm _).nodup_iff]
  exact List.nodup_dedup _

lemma find?_keyed (f : String → ℚ) (s : String) :
    ∀ keys : List String,
      (keys.map (fun k => (k, f k))).find? (fun p => p.1 == s) =
        if s ∈ keys then some (s, f s) else none := by
  intro keys
  induction keys with
  | nil => simp
  | cons k ks ih =>
    by_cases h : k = s
    · subst h
      rw [List.map_cons, List.find?_cons_of_pos _ (by simp), if_pos (by simp)]
    · rw [List.map_cons, List.find?_cons_of_neg _ (by simp [h]), ih]
      have hne : s ≠ k := fun hs => h hs.symm
      simp [List.mem_cons, hne]

lemma mapLookup_groupSum (rows : List (String × Option ℚ)) (s : String) :
    mapLookup (groupSum rows) s =
      if s ∈ rows.map Prod.fst then some (keyContrib rows s) else none := by
  rw [groupSum, mapLookup, find?_keyed]
  by_cases h : s ∈ rows.map Prod.fst
  · rw [if_pos (mem_groupKeys.mpr h), if_pos h]
    rfl
  · rw [if_neg (fun hc => h (mem_groupKeys.mp hc)), if_neg h]
    rfl

lemma keyContrib_eq_zero {rows : List (String × Option ℚ)} {s : String}
    (h : s ∉ rows.map Prod.fst) : keyContrib rows s = 0 := by
  induction rows with
  | nil => rfl
  | cons r rs ih =>
    rw [List.map_cons, List.mem_cons] at h
    push_neg at h
    have hr : (r.1 == s) = false := by
      simp only [beq_eq_false_iff_ne]
      exact fun hs => h.1 hs.symm
    rw [keyContrib, List.map_cons, List.sum_cons, hr]
    simpa [keyContrib] using ih h.2

lemma aggLookup_groupSum (rows : List (String × Option ℚ)) (s : String) :
    aggLookup (groupSum rows) s = keyContrib rows s := by
  rw [aggLookup, mapLookup_groupSum]
  split
  · rfl
  · rename_i h
    rw [keyContrib_eq_zero (by simpa using h)]
    rfl

lemma keyContrib_map {β : Type} (f : β → String × Option ℚ) (l : List β)
    (k : String) :
    keyContrib (l.map f) k =
      (l.map (fun b => if (f b).1 == k then (f b).2.getD 0 else 0)).sum := by
  rw [keyContrib, List.map_map]
  rfl

lemma map_fst_groupSum (rows : List (String × Option ℚ)) :
    (groupSum rows).map Prod.fst = groupKeys rows := by
  rw [groupSum, List.map_map]
  exact List.map_id _

lemma sumIf_eq_zero {g : List (String × ℚ)} {s : String}
    (h : s ∉ g.map Prod.fst) :
    (g.map (fun p => if p.1 == s then p.2 else 0)).sum = 0 := by
  induction g with
  | nil => rfl
  | cons p ps ih =>
    rw [List.map_cons, List.mem_cons] at h
    push_neg at h
    have hp : (p.1 == s) = false := by
      simp only [beq_eq_false_iff_ne]
      exact fun hs => h.1 hs.symm
    rw [List.map_cons, List.sum_cons, hp, if_neg (by simp), zero_add]
    exact ih h.2

lemma aggLookup_cons (p : String × ℚ) (g : List (String × ℚ)) (s : String) :
    aggLookup (p :: g) s = if p.1 == s then p.2 else aggLookup g s := by
  rw [aggLookup, mapLookup, List.find?_cons]
  cases h : p.1 == s <;> simp [h, aggLookup, mapLookup]

lemma sumIf_eq_aggLookup {g : List (String × ℚ)}
    (hnd : (g.map Prod.fst).Nodup) (s : String) :
    (g.map (fun p => if p.1 == s then p.2 else 0)).sum = aggLookup g s := by
  induction g with
  | nil => rfl
  | cons p ps ih =>
    rw [List.map_cons] at hnd
    rw [List.map_cons, List.sum_cons, aggLookup_cons]
    by_cases hp : p.1 = s
    · have hmem : s ∉ ps.map Prod.fst := by
        intro hmem
        exact (List.nodup_cons.mp hnd).1 (hp ▸ hmem)
      rw [if_pos (by simp [hp]), if_pos (by simp [hp]),
        sumIf_eq_zero hmem, add_zero]
    · rw [if_neg (by simp [hp]), if_neg (by simp [hp]), zero_add,
        ih (List.nodup_cons.mp hnd).2]

/-! ### Python dict lemmas -/

lemma find?_map_update_self {α : Type} {d : List (String × α)} {k : String}
    {v : α} (h : d.any (fun p => p.1 == k) = true) :
    (d.map (fun p => if p.1 == k then (k, v) else p)).find?
        (fun p => p.1 == k) = some (k, v) := by
  induction d with
  | nil => simp at h
  | cons p ps ih =>
    by_cases hp : p.1 = k
    · rw [List.map_cons, if_pos (by simp [hp]),
        List.find?_cons_of_pos _ (by simp)]
    · rw [List.any_cons] at h
      have hps : ps.any (fun p => p.1 == k) = true := by
        simpa [hp] using h
      rw [List.map_cons, if_neg (by simp [hp]),
        List.find?_cons_of_neg _ (by simp [hp]), ih hps]

lemma find?_map_update_ne {α : Type} {d : List (String × α)} {j : String}
    {v : α} {k : String} (hk : k ≠ j) :
    (d.map (fun p => if p.1 == j then (j, v) else p)).find?
        (fun p => p.1 == k) = d.find? (fun p => p.1 == k) := by
  induction d with
  | nil => rfl
  | cons p ps ih =>
    by_cases hp : p.1 = j
    · rw [List.map_cons, if_pos (by simp [hp]),
        List.find?_cons_of_neg _ (by simp [Ne.symm hk]),
        List.find?_cons_of_neg _ (by simp [hp, Ne.symm hk]), ih]
    · rw [List.map_cons, if_neg (by simp [hp])]
      by_cases hpk : p.1 = k
      · rw [List.find?_cons_of_pos _ (by simp [hpk]),
          List.find?_cons_of_pos _ (by simp [hpk])]
      · rw [List.find?_cons_of_neg _ (by simp [hpk]),
          List.find?_cons_of_neg _ (by simp [hpk]), ih]

lemma dictGet_dictInsert_self {α : Type} (d : List (String × α))
    (k : String) (v : α) : dictGet (dictInsert d k v) k = some v := by
  rw [dictInsert]
  split
  · rename_i h
    rw [dictGet, find?_map_update_self h]
    rfl
  · rename_i h
    have hd : d.find? (fun p => p.1 == k) = none := by
      rw [List.find?_eq_none]
      intro x hx hc
      exact h (List.any_eq_true.mpr ⟨x, hx, hc⟩)
    rw [dictGet, List.find?_append, hd, Option.none_or,
      List.find?_cons_of_pos _ (by simp)]
    rfl

lemma dictGet_dictInsert_ne {α : Type} {d : List (String × α)} {j : String}
    {v : α} {k : String} (hk : k ≠ j) :
    dictGet (dictInsert d j v) k = dictGet d k := by
  rw [dictInsert]
  split
  · rw [dictGet, find?_map_update_ne hk]
    rfl
  · rw [dictGet, List.find?_append,
      List.find?_cons_of_neg _ (by simp [Ne.symm hk])]
    simp [dictGet]

lemma dictOfZip_append_single {α : Type} (ps : List (String × α))
    (q : String × α) :
    dictOfZip (ps ++ [q]) = dictInsert (dictOfZip ps) q.1 q.2 := by
  rw [dictOfZip, dictOfZip, List.foldl_append]
  rfl

lemma dictGet_foldl_of_notMem {α : Type} {k : String} :
    ∀ {ps : List (String × α)}, k ∉ ps.map Prod.fst →
      ∀ d : List (String × α),
        dictGet (ps.foldl (fun d p => dictInsert d p.1 p.2) d) k =
          dictGet d k := by
  intro ps
  induction ps with
  | nil => intro _ d; rfl
  | cons p ps ih =>
    intro h d
    rw [List.map_cons, List.mem_cons] at h
    push_neg at h
    rw [List.foldl_cons, ih h.2, dictGet_dictInsert_ne h.1]

lemma dictGet_dictOfZip_of_notMem {α : Type} {ps : List (String × α)}
    {k : String} (h : k ∉ ps.map Prod.fst) :
    dictGet (dictOfZip ps) k = none := by
  rw [dictOfZip, dictGet_foldl_of_notMem h]
  rfl

/-! ### Pipeline-level lemmas -/

lemma aggLookup_aggStage (orders : List OrderLine) (exc : List ExcRow)
    (s : String) :
    aggLookup (aggStage orders exc) s =
      ((orders.filter keepLine).map (fun l =>
        if canonicalOf exc l.variantSku == s then
          (toNumeric l.quantity).getD 0 * multiplierOf exc l.variantSku
        else 0)).sum := by
  rw [aggStage, aggLookup_groupSum, linesOf, keyContrib_map]
  apply congrArg List.sum
  apply List.map_congr_left
  intro l _
  simp only [lineOf]
  by_cases hc : (canonicalOf exc l.variantSku == s) = true
  · rw [if_pos hc, if_pos hc]
    cases hq : toNumeric l.quantity
    · simp
    · simp
  · rw [if_neg hc, if_neg hc]

lemma canonicalOf_of_notMem {exc : List ExcRow} {sku : String}
    (h : sku ∉ exc.map ExcRow.variantSku) : canonicalOf exc sku = sku := by
  rw [canonicalOf, nameDict, dictGet_dictOfZip_of_notMem
    (by rw [List.map_map]; exact h)]
  rfl

lemma multiplierOf_of_notMem {exc : List ExcRow} {sku : String}
    (h : sku ∉ exc.map ExcRow.variantSku) : multiplierOf exc sku = 1 := by
  rw [multiplierOf, multDict, dictGet_dictOfZip_of_notMem
    (by rw [List.map_map]; exact h)]

lemma keyContrib_fix (exc : List ExcRow) (s : String) :
    keyContrib (exc.map (fun r => (r.variantSku, r.fixQty))) s =
      excFixSum exc s := by
  rw [keyContrib_map]
  rfl

lemma keyContrib_bundle (exc : List ExcRow) (s : String) :
    keyContrib (exc.map (fun r => (r.itemName, cellMul r.fixQty r.quantity)))
        s = bundleSubOf exc s := by
  rw [keyContrib_map]
  rfl

lemma mapLookup_fixGroups (exc : List ExcRow) (s : String) :
    mapLookup (fixGroups exc) s =
      if s ∈ exc.map ExcRow.variantSku then some (excFixSum exc s)
      else none := by
  rw [fixGroups, mapLookup_groupSum]
  by_cases h : s ∈ exc.map ExcRow.variantSku
  · rw [if_pos (by rw [List.map_map]; exact h), if_pos h, keyContrib_fix]
  · rw [if_neg (by rw [List.map_map]; exact h), if_neg h]

lemma mapLookup_bundleGroups (exc : List ExcRow) (s : String) :
    mapLookup (bundleGroups exc) s =
      if s ∈ exc.map ExcRow.itemName then some (bundleSubOf exc s)
      else none := by
  rw [bundleGroups, mapLookup_groupSum]
  by_cases h : s ∈ exc.map ExcRow.itemName
  · rw [if_pos (by rw [List.map_map]; exact h), if_pos h, keyContrib_bundle]
  · rw [if_neg (by rw [List.map_map]; exact h), if_neg h]

lemma afterFix_of_mem (stock : List StockRow) (exc : List ExcRow)
    (sku : String) (h : sku ∈ exc.map ExcRow.variantSku) :
    afterFixOnHand stock exc sku = excFixSum exc sku := by
  rw [afterFixOnHand, mapLookup_fixGroups, if_pos h]
  rfl

/-! ### Concrete inputs for the end-to-end and re-input checks -/

/-- Orders of the end-to-end example: two lines for SKU X, quantities 2
and 3. -/
def c1orders : List OrderLine := [⟨"X", .num 2⟩, ⟨"X", .num 3⟩]

/-- Exception table of the end-to-end example: X has multiplier 1 and
canonical name Widget. -/
def c1exc : List ExcRow := [⟨"X", some 1, "Widget", none⟩]

/-- Catalog of the end-to-end example: Widget has id I1, amount 10, unit
EA. -/
def c1catalog : List CatalogRow := [⟨"I1", "Widget", some 10, "EA"⟩]

/-- C1 (counterexample): on the end-to-end example the function does not
return exactly one row: the trailing reindex prepends four all-missing
rows, so the returned table has five rows. -/
theorem process_orders_end_to_end_count :
    (process_orders c1orders c1catalog c1exc).length ≠ 1 := by
  with_unfolding_all decide

/-- C1 (amended): on the end-to-end example the function returns four
all-missing padding rows followed by exactly one delivery data row with
item_code I1, item_name Widget, description Widget, qty 5, stock_uom EA,
uom EA, amount 50. -/
theorem process_orders_end_to_end :
    process_orders c1orders c1catalog c1exc =
      List.replicate 4 blankDeliveryRow ++
        [⟨some "I1", some "Widget", some "Widget", some 5, some "EA",
          some "EA", some 50⟩] := by
  with_unfolding_all decide

/-- C2: the aggregated total attributed to each canonical SKU equals the
sum, over the non-filtered raw order lines mapping to that SKU, of the
coerced quantity times the multiplier of the original SKU; in particular
with an empty exception table the total per SKU is the plain sum of that
coerced input quantities of that SKU. -/
theorem transform_orders_sku_totals :
    (∀ (orders : List OrderLine) (exc : List ExcRow) (s : String),
        aggLookup (aggStage orders exc) s =
          ((orders.filter keepLine).map (fun l =>
            if canonicalOf exc l.variantSku == s then
              (toNumeric l.quantity).getD 0 * multiplierOf exc l.variantSku
            else 0)).sum) ∧
    (∀ (orders : List OrderLine) (s : String),
        aggLookup (aggStage orders []) s =
          ((orders.filter keepLine).map (fun l =>
            if l.variantSku == s then (toNumeric l.quantity).getD 0
            else 0)).sum) := by
  refine ⟨aggLookup_aggStage, ?_⟩
  intro orders s
  rw [aggLookup_aggStage]
  apply congrArg List.sum
  apply List.map_congr_left
  intro l _
  rw [canonicalOf_of_notMem (by simp), multiplierOf_of_notMem (by simp),
    mul_one]

/-- C3: whenever a SKU appears in the exception table, the tier-2 stage
sets its on-hand to the summed Fix Qty of that SKU, fully replacing the
stock-derived tier-1 value whatever the stock table says; when the SKU is
additionally no bundle parent, the final reconciled value equals that
override. -/
theorem inventory_fixed_override (stock : List StockRow)
    (exc : List ExcRow) (sku : String)
    (h : sku ∈ exc.map ExcRow.variantSku) :
    afterFixOnHand stock exc sku = excFixSum exc sku ∧
    (sku ∉ exc.map ExcRow.itemName →
      reconciledOnHand stock exc sku = excFixSum exc sku) := by
  refine ⟨afterFix_of_mem stock exc sku h, ?_⟩
  intro hb
  rw [reconciledOnHand, mapLookup_bundleGroups, if_neg hb,
    afterFix_of_mem stock exc sku h]
  simp

/-- C3 witness: stock balance 10 with fixed-quantity override 20
reconciles to 20, not 10 and not 30. -/
theorem inventory_fixed_override_witness :
    afterFixOnHand [⟨"Y", some 10⟩] [⟨"Y", some 1, "P", some 20⟩] "Y" = 20 ∧
    reconciledOnHand [⟨"Y", some 10⟩] [⟨"Y", some 1, "P", some 20⟩] "Y" =
      20 := by
  have h := inventory_fixed_override [⟨"Y", some 10⟩]
    [⟨"Y", some 1, "P", some 20⟩] "Y" (by with_unfolding_all decide)
  refine ⟨?_, ?_⟩
  · rw [h.1]
    with_unfolding_all decide
  · rw [h.2 (by with_unfolding_all decide)]
    with_unfolding_all decide

/-- C4: for a SKU that matches a bundle parent name, the reconciled
on-hand is the tier-2 value minus the bundle subtraction (the sum of
Fix Qty times Quantity over the rows of that parent), applied after any
fixed-quantity override and without clamping. -/
theorem inventory_bundle_subtraction (stock : List StockRow)
    (exc : List ExcRow) (sku : String)
    (h : sku ∈ exc.map ExcRow.itemName) :
    reconciledOnHand stock exc sku =
      afterFixOnHand stock exc sku - bundleSubOf exc sku := by
  rw [reconciledOnHand, mapLookup_bundleGroups, if_pos h]
  rfl

/-- C4 witness: fixed quantity 20 with bundle subtraction total 5
reconciles to 15. -/
theorem inventory_bundle_subtraction_witness :
    reconciledOnHand []
      [⟨"P", some 1, "X", some 20⟩, ⟨"C", some 5, "P", some 1⟩] "P" =
      15 := by
  rw [inventory_bundle_subtraction []
    [⟨"P", some 1, "X", some 20⟩, ⟨"C", some 5, "P", some 1⟩] "P"
    (by with_unfolding_all decide)]
  with_unfolding_all decide

/-- C5: duplicate-key asymmetry of the exception table. The multiplier
dict resolves a duplicated SKU by last row wins: appending a row makes
its Quantity (1 when missing) the multiplier of its SKU, whatever came
before. The fixed-quantity mapping instead sums Fix Qty across all rows
sharing the SKU. -/
theorem exception_dup_key_asymmetry :
    (∀ (exc : List ExcRow) (r : ExcRow),
        multiplierOf (exc ++ [r]) r.variantSku = r.quantity.getD 1) ∧
    (∀ (exc : List ExcRow) (s : String),
        mapLookup (fixGroups exc) s =
          if s ∈ exc.map ExcRow.variantSku then some (excFixSum exc s)
          else none) := by
  refine ⟨?_, mapLookup_fixGroups⟩
  intro exc r
  rw [multiplierOf, multDict, List.map_append, List.map_singleton,
    dictOfZip_append_single, dictGet_dictInsert_self]
  cases r.quantity <;> rfl

/-- Raw orders built back from an aggregated result, feeding the output
totals in as if they were a fresh orders table. -/
def reinputOrders (agg : List (String × ℚ)) : List OrderLine :=
  agg.map (fun p => ⟨p.1, RawCell.num p.2⟩)

/-- Orders for the re-input counterexample: one line, SKU X, quantity
3. -/
def c6orders : List OrderLine := [⟨"X", .num 3⟩]

/-- Exception table whose canonical name X collides with the exception
key X, so the multiplier 2 is re-applied on re-input. -/
def c6exc : List ExcRow := [⟨"X", some 2, "X", none⟩]

/-- C6 (counterexample): re-running the transformation on its own
aggregated output is not idempotent: with multiplier 2 and a canonical
name equal to the exception key, SKU X aggregates to 6 on the first run
and to 12 on the re-run. -/
theorem transform_orders_reinput_not_idempotent :
    aggLookup (aggStage (reinputOrders (aggStage c6orders c6exc)) c6exc)
        "X" ≠ aggLookup (aggStage c6orders c6exc) "X" := by
  with_unfolding_all decide

/-- C6 (amended): re-running the transformation on its own aggregated
output keeps every per-SKU total, provided no aggregated canonical SKU
starts with a reserved marker and none of them occurs as a Variant SKU
key of the exception table (otherwise multipliers and renames are
re-applied). -/
theorem transform_orders_reinput_totals (orders : List OrderLine)
    (exc : List ExcRow)
    (h : ∀ p ∈ aggStage orders exc,
        keepLine ⟨p.1, RawCell.num p.2⟩ = true ∧
        p.1 ∉ exc.map ExcRow.variantSku) :
    ∀ s, aggLookup (aggStage (reinputOrders (aggStage orders exc)) exc) s =
      aggLookup (aggStage orders exc) s := by
  intro s
  rw [aggLookup_aggStage]
  have hfilter : (reinputOrders (aggStage orders exc)).filter keepLine =
      reinputOrders (aggStage orders exc) := by
    rw [List.filter_eq_self]
    intro a ha
    obtain ⟨p, hp, rfl⟩ := List.mem_map.mp ha
    exact (h p hp).1
  rw [hfilter, reinputOrders, List.map_map]
  have hcongr : ∀ p ∈ aggStage orders exc,
      ((fun l : OrderLine =>
          if canonicalOf exc l.variantSku == s then
            (toNumeric l.quantity).getD 0 * multiplierOf exc l.variantSku
          else 0) ∘ (fun p : String × ℚ => OrderLine.mk p.1 (.num p.2))) p =
        (fun p : String × ℚ => if p.1 == s then p.2 else 0) p := by
    intro p hp
    simp only [Function.comp_apply]
    rw [canonicalOf_of_notMem (h p hp).2, multiplierOf_of_notMem (h p hp).2,
      mul_one]
    rfl
  rw [List.map_congr_left hcongr]
  apply sumIf_eq_aggLookup
  rw [aggStage, map_fst_groupSum]
  exact nodup_groupKeys _

/-- C6 witness: with multiplier 2 and rename X to W, the aggregated
output (W, 6) re-runs to the same total for W, as W is no exception
key. -/
theorem transform_orders_reinput_totals_witness :
    aggLookup (aggStage (reinputOrders (aggStage [⟨"X", .num 3⟩]
        [⟨"X", some 2, "W", none⟩])) [⟨"X", some 2, "W", none⟩]) "W" =
      aggLookup (aggStage [⟨"X", .num 3⟩] [⟨"X", some 2, "W", none⟩])
        "W" :=
  transform_orders_reinput_totals [⟨"X", .num 3⟩]
    [⟨"X", some 2, "W", none⟩] (by with_unfolding_all decide) "W"

/-- C7: an order line whose SKU starts with ROUTEINS or KITE is dropped
by the filter before multiplication, renaming and aggregation: removing
such a line leaves the entire output unchanged, so it contributes zero
quantity to every output row. -/
theorem reserved_sku_dropped (l : OrderLine) (orders : List OrderLine)
    (item_data : List CatalogRow) (exc : List ExcRow)
    (h : startsWithStr l.variantSku "ROUTEINS" = true ∨
        startsWithStr l.variantSku "KITE" = true) :
    process_orders (l :: orders) item_data exc =
      process_orders orders item_data exc := by
  have hk : keepLine l = false := by
    rw [keepLine]
    rcases h with h | h <;> rw [h] <;> simp
  rw [process_orders, process_orders, aggStage, aggStage, linesOf, linesOf,
    List.filter_cons, if_neg (by simp [hk])]

/-- C7 witness: a ROUTEINS line drops out of the end-to-end output. -/
theorem reserved_sku_dropped_witness :
    process_orders [⟨"ROUTEINSX", .num 7⟩, ⟨"A", .num 1⟩] [] [] =
      process_orders [⟨"A", .num 1⟩] [] [] :=
  reserved_sku_dropped ⟨"ROUTEINSX", .num 7⟩ [⟨"A", .num 1⟩] [] []
    (Or.inl (by with_unfolding_all decide))

/-- C8: bundle expansion is quantity-preserving per component: an
aggregated entry whose SKU splits into k components contributes a
contiguous block of k exploded rows, one per component, each carrying the
full aggregated quantity. -/
theorem bundle_explode_full_qty (shipment : List (String × ℚ))
    (s : String) (Q : ℚ) (h : (s, Q) ∈ shipment) :
    ((splitOnPlus s).map (fun c => (c, Q))) <:+: explodeBundles shipment := by
  obtain ⟨l₁, l₂, rfl⟩ := List.append_of_mem h
  refine ⟨explodeBundles l₁, explodeBundles l₂, ?_⟩
  simp [explodeBundles, List.flatMap_append, List.flatMap_cons,
    List.append_assoc]

/-- C8 witness: the bundle A+B with aggregated quantity 5 explodes into
the rows (A, 5) and (B, 5), both carrying the full 5. -/
theorem bundle_explode_full_qty_witness :
    ((splitOnPlus "A+B").map (fun c => (c, (5:ℚ)))) <:+:
      explodeBundles [("A+B", (5:ℚ))] :=
  bundle_explode_full_qty [("A+B", 5)] "A+B" 5 (by with_unfolding_all decide)

/-- C9: a quantity value that numeric coercion cannot parse becomes
missing and contributes nothing to any aggregated per-SKU total: adding
such a line never changes any total (the embedding is a total function,
so no exception can surface for such data values). -/
theorem malformed_qty_contributes_nothing (orders : List OrderLine)
    (exc : List ExcRow) (l : OrderLine) (h : toNumeric l.quantity = none) :
    ∀ s, aggLookup (aggStage (l :: orders) exc) s =
      aggLookup (aggStage orders exc) s := by
  intro s
  rw [aggLookup_aggStage, aggLookup_aggStage, List.filter_cons]
  by_cases hk : keepLine l = true
  · rw [if_pos hk, List.map_cons, List.sum_cons, h]
    simp
  · rw [if_neg hk]

/-- C9 witness: an unparseable quantity on SKU B leaves the total of B at
2. -/
theorem malformed_qty_contributes_nothing_witness :
    aggLookup (aggStage [⟨"B", .unparseable⟩, ⟨"B", .num 2⟩] []) "B" =
      aggLookup (aggStage [⟨"B", .num 2⟩] []) "B" :=
  malformed_qty_contributes_nothing [⟨"B", .num 2⟩] [] ⟨"B", .unparseable⟩
    rfl "B"

/-- C10: a SKU present in the exception table whose Fix Qty values are
all missing still receives the tier-2 override with value 0, replacing
the stock-derived base before bundle subtraction: presence alone
triggers the override. -/
theorem all_missing_fixqty_override_zero (stock : List StockRow)
    (exc : List ExcRow) (sku : String)
    (h1 : sku ∈ exc.map ExcRow.variantSku)
    (h2 : ∀ r ∈ exc, r.variantSku = sku → r.fixQty = none) :
    afterFixOnHand stock exc sku = 0 := by
  rw [afterFix_of_mem stock exc sku h1, excFixSum]
  apply List.sum_eq_zero
  intro x hx
  obtain ⟨r, hr, rfl⟩ := List.mem_map.mp hx
  by_cases hc : (r.variantSku == sku) = true
  · rw [if_pos hc, h2 r hr (by simpa using hc)]
    rfl
  · rw [if_neg hc]

/-- C10 witness: SKU Z with stock balance 7 and one exception row with
missing Fix Qty overrides to 0. -/
theorem all_missing_fixqty_override_zero_witness :
    afterFixOnHand [⟨"Z", some 7⟩] [⟨"Z", some 1, "P", none⟩] "Z" = 0 :=
  all_missing_fixqty_override_zero [⟨"Z", some 7⟩]
    [⟨"Z", some 1, "P", none⟩] "Z" (by with_unfolding_all decide)
    (by with_unfolding_all decide)
